import Mathlib

set_option maxHeartbeats 1000000

/-! Verification of the property-record analysis programs
(`pattern_analyzer.py`, `utils.py`, `llm_classifier.py`).

Python strings are modelled as `List Char`; the analysed data is ASCII and
the character-class functions below follow Python semantics on ASCII.
Python dictionaries (which preserve insertion order) are modelled as
association lists in insertion order. -/

/-- A Python string, as a list of characters. -/
abbrev PyStr := List Char

/-- Convert a Lean string literal to the `PyStr` model. -/
def pstr (s : String) : PyStr := s.toList

/-- Python `c.isdigit()` on ASCII characters; also the regex class `\d`. -/
def isDigitC (c : Char) : Bool := 48 ≤ c.toNat && c.toNat ≤ 57

/-- Python `c.isalpha()` on ASCII characters; also the regex class `[A-Za-z]`. -/
def isAlphaC (c : Char) : Bool :=
  (65 ≤ c.toNat && c.toNat ≤ 90) || (97 ≤ c.toNat && c.toNat ≤ 122)

/-- A Python value that may appear in a record field: a string or an int. -/
inductive PyVal where
  | vStr (s : PyStr)
  | vInt (n : Int)
deriving DecidableEq

/-- Python truthiness of a field value (`if book:` and similar guards):
the empty string and the integer 0 are falsy. -/
def truthy : PyVal → Bool
  | .vStr s => !s.isEmpty
  | .vInt n => n != 0

/-- The ASCII digit character for `n < 10`. -/
def digitChar (n : Nat) : Char := Char.ofNat (48 + n)

/-- Decimal digits with explicit fuel (structural recursion keeps the
definition kernel-computable; `n + 1` units of fuel always suffice since
the digit count of `n` is at most `n + 1`). -/
def natReprAux : Nat → Nat → PyStr
  | 0, _ => []
  | fuel + 1, n =>
    if n < 10 then [digitChar n]
    else natReprAux fuel (n / 10) ++ [digitChar (n % 10)]

/-- Decimal digits of a natural number, most significant first. -/
def natRepr (n : Nat) : PyStr := natReprAux (n + 1) n

/-- Python `str(v)` on a record field value. -/
def pyStrOf : PyVal → PyStr
  | .vStr s => s
  | .vInt n => if n < 0 then '-' :: natRepr n.natAbs else natRepr n.natAbs

/-- One input record (a parsed JSONL line); absent fields are `none`. -/
structure Record where
  county : Option PyStr := none
  instrument_number : Option PyVal := none
  book : Option PyVal := none
  page : Option PyVal := none
  date : Option PyStr := none
  doc_type : Option PyStr := none
deriving DecidableEq

/-! ## Instrument-number pattern inference (`analyze_instrument_patterns`) -/

/-- One character-class token of an instrument-number shape.  The Python
code stores the shape as the concatenated string of `\d`, `[A-Za-z]` and
(escaped) literal fragments; those fragments form an unambiguous code, so
the string is in bijection with this token list. -/
inductive Tok where
  | TD
  | TL
  | TLit (c : Char)
deriving DecidableEq

/-- The regex metacharacters that the source escapes when a literal
character enters the pattern. -/
def escapeChars : List Char :=
  ['-', '.', '/', '_', '(', ')', Char.ofNat 123, Char.ofNat 125,
   '[', ']', '*', '+', '?', '^', '$', '|', '\\']

/-- Per-character classification in the pattern loop. -/
def charTok (c : Char) : Tok :=
  if isDigitC c then .TD else if isAlphaC c then .TL else .TLit c

/-- The shape key of an instrument number. -/
def shape (s : PyStr) : List Tok := s.map charTok

/-- The readable fragment of one token (after the two `replace` calls that
turn digit fragments into `D` and letter fragments into `L`). -/
def tokReadable : Tok → PyStr
  | .TD => ['D']
  | .TL => ['L']
  | .TLit c => if c ∈ escapeChars then ['\\', c] else [c]

/-- The readable pattern of a shape. -/
def readablePattern (ts : List Tok) : PyStr := (ts.map tokReadable).flatten

/-- One quantified atom of the compiled anchored regex. -/
inductive RTok where
  | RD (n : Nat)
  | RL (n : Nat)
  | RLit (c : Char)
deriving DecidableEq

/-- Run-length collapse of the shape into quantified atoms, as performed by
the regex-building scan (`\d{n}`, `[A-Za-z]{n}`, literal characters). -/
def compileRegex : List Tok → List RTok
  | [] => []
  | .TD :: ts =>
    match compileRegex ts with
    | .RD n :: rs => .RD (n + 1) :: rs
    | rs => .RD 1 :: rs
  | .TL :: ts =>
    match compileRegex ts with
    | .RL n :: rs => .RL (n + 1) :: rs
    | rs => .RL 1 :: rs
  | .TLit c :: ts => .RLit c :: compileRegex ts

/-- Termination measure weight of a quantified atom. -/
def rtokWeight : RTok → Nat
  | .RD n => n + 1
  | .RL n => n + 1
  | .RLit _ => 1

/-- Semantics of the anchored regex `^...$` built from quantified atoms:
`\d{n}` consumes n digit characters, `[A-Za-z]{n}` consumes n ASCII
letters, and an (escaped) literal consumes exactly itself. -/
def rmatch : List RTok → PyStr → Bool
  | [], s => s.isEmpty
  | .RD 0 :: rs, s => rmatch rs s
  | .RD (_ + 1) :: _, [] => false
  | .RD (n + 1) :: rs, c :: cs => isDigitC c && rmatch (.RD n :: rs) cs
  | .RL 0 :: rs, s => rmatch rs s
  | .RL (_ + 1) :: _, [] => false
  | .RL (n + 1) :: rs, c :: cs => isAlphaC c && rmatch (.RL n :: rs) cs
  | .RLit _ :: _, [] => false
  | .RLit a :: rs, c :: cs => (a == c) && rmatch rs cs
termination_by rs s => (rs.map rtokWeight).sum + s.length
decreasing_by all_goals (simp only [rtokWeight, List.map_cons, List.sum_cons, List.length_cons]; omega)

/-- Token-by-token matching: the uncollapsed form of the same regex. -/
def rmatchToks : List Tok → PyStr → Bool
  | [], s => s.isEmpty
  | .TD :: ts, c :: cs => isDigitC c && rmatchToks ts cs
  | .TL :: ts, c :: cs => isAlphaC c && rmatchToks ts cs
  | .TLit a :: ts, c :: cs => (a == c) && rmatchToks ts cs
  | _ :: _, [] => false

/-- Does the instrument number carry the excluded marker
(`instr_num.startswith` of the two-letter marker)? -/
def startsWithBp (s : PyStr) : Bool := (pstr "bp").isPrefixOf s

/-- Insert one instrument number into its shape bucket (Python defaultdict,
insertion order preserved). -/
def addToGroups (k : List Tok) (v : PyStr) :
    List (List Tok × List PyStr) → List (List Tok × List PyStr)
  | [] => [(k, [v])]
  | (k1, vs) :: rest =>
    if k1 = k then (k1, vs ++ [v]) :: rest else (k1, vs) :: addToGroups k v rest

/-- The instrument numbers gathered from the records: values that are
truthy strings (`if instr_num and isinstance(instr_num, str)`). -/
def instrumentNumbers (records : List Record) : List PyStr :=
  records.filterMap fun r =>
    match r.instrument_number with
    | some (.vStr s) => if s.isEmpty then none else some s
    | _ => none

/-- The shape buckets of `analyze_instrument_patterns`, in insertion order;
instrument numbers carrying the excluded marker are skipped. -/
def patternGroups (ins : List PyStr) : List (List Tok × List PyStr) :=
  ins.foldl (fun gs s => if startsWithBp s then gs else addToGroups (shape s) s gs) []

/-- Round the fraction `a / b` (with `0 < b`) to the nearest integer, ties
to even: the idealized semantics of Python round() on the exact value. -/
def rheNat (a b : Nat) : Nat :=
  if 2 * (a % b) < b then a / b
  else if b < 2 * (a % b) then a / b + 1
  else if a / b % 2 = 0 then a / b else a / b + 1

/-- The percentage field in integer hundredths: the source reports
`round(count / total * 100, 2) if total > 0 else 0`; this value is exactly
100 times that reported (two-decimal) percentage, modelled in exact
integer arithmetic. -/
def percentageCenti (count total : Nat) : Nat :=
  if 0 < total then rheNat (10000 * count) total else 0

/-- One entry of the result list of `analyze_instrument_patterns`
(`percentage_centi` stores 100 times the reported percentage). -/
structure PatternGroup where
  pattern : PyStr
  regex : List RTok
  ex : PyStr
  count : Nat
  percentage_centi : Nat
deriving DecidableEq

/-- Build one output entry from a shape bucket. -/
def mkPatternGroup (total : Nat) (g : List Tok × List PyStr) : PatternGroup :=
  { pattern := readablePattern g.1
    regex := compileRegex g.1
    ex := g.2.headD []
    count := g.2.length
    percentage_centi := percentageCenti g.2.length total }

/-- Insert after all entries with a count that is not smaller: together with
the fold below this models the stable descending sort
`result.sort(key count, reverse True)`. -/
def insertByCountDesc (x : PatternGroup) : List PatternGroup → List PatternGroup
  | [] => [x]
  | y :: ys => if y.count < x.count then x :: y :: ys else y :: insertByCountDesc x ys

/-- Stable sort by descending count. -/
def sortByCountDesc (l : List PatternGroup) : List PatternGroup :=
  l.foldl (fun acc x => insertByCountDesc x acc) []

/-- `analyze_instrument_patterns` from pattern_analyzer.py. -/
def analyze_instrument_patterns (records : List Record) : List PatternGroup :=
  let ins := instrumentNumbers records
  if ins.isEmpty then []
  else
    let total := (ins.filter (fun s => !startsWithBp s)).length
    sortByCountDesc ((patternGroups ins).map (mkPatternGroup total))

/-! ## Book/page characterization (`analyze_book_page_patterns`) -/

/-- Python `s.isdigit()`: nonempty and all digits. -/
def strIsDigit (s : PyStr) : Bool := !s.isEmpty && s.all isDigitC

/-- Python string comparison (code-point lexicographic). -/
def strLt : PyStr → PyStr → Bool
  | [], [] => false
  | [], _ :: _ => true
  | _ :: _, [] => false
  | a :: as, b :: bs =>
    if a.toNat < b.toNat then true
    else if b.toNat < a.toNat then false
    else strLt as bs

/-- The sort key comparison `(len(x), x)` with Python tuple ordering. -/
def keyLt (a b : PyStr) : Bool :=
  if a.length < b.length then true
  else if b.length < a.length then false
  else strLt a b

/-- Python min with a key comparison: keeps the first minimum. -/
def pyMinBy (lt : PyStr → PyStr → Bool) : List PyStr → Option PyStr
  | [] => none
  | x :: xs => some (xs.foldl (fun b a => if lt a b then a else b) x)

/-- Python max with a key comparison: keeps the first maximum. -/
def pyMaxBy (lt : PyStr → PyStr → Bool) : List PyStr → Option PyStr
  | [] => none
  | x :: xs => some (xs.foldl (fun b a => if lt b a then a else b) x)

/-- `if book: books.append(str(book))` for one field value. -/
def fieldStr (v : Option PyVal) : Option PyStr :=
  v.bind fun w => if truthy w then some (pyStrOf w) else none

/-- The stringified truthy book values of a record list. -/
def bookStrs (records : List Record) : List PyStr :=
  records.filterMap fun r => fieldStr r.book

/-- The stringified truthy page values of a record list. -/
def pageStrs (records : List Record) : List PyStr :=
  records.filterMap fun r => fieldStr r.page

/-- One field characterization entry of `analyze_book_page_patterns`. -/
structure FieldPattern where
  field : PyStr
  is_numeric : Bool
  has_letters : Bool
  min_value : Option PyStr
  max_value : Option PyStr
  unique_count : Nat
  total_count : Nat
deriving DecidableEq

/-- The characterization dictionary built for one field. -/
def mkFieldPattern (name : PyStr) (vals : List PyStr) : FieldPattern :=
  { field := name
    is_numeric := vals.all strIsDigit
    has_letters := vals.any (fun v => !strIsDigit v)
    min_value := pyMinBy keyLt vals
    max_value := pyMaxBy keyLt vals
    unique_count := vals.dedup.length
    total_count := vals.length }

/-- `analyze_book_page_patterns` from pattern_analyzer.py. -/
def analyze_book_page_patterns (records : List Record) : List FieldPattern :=
  let books := bookStrs records
  let pages := pageStrs records
  (if books.isEmpty then [] else [mkFieldPattern (pstr "book") books]) ++
  (if pages.isEmpty then [] else [mkFieldPattern (pstr "page") pages])

/-! ## Date normalization and date ranges (`parse_date`, `analyze_date_ranges`)

The datetime library functions are supplied as oracles: each strptime
format attempt and the dateutil fallback are functions returning the
isoformat rendering on success and `none` on ValueError;
`datetime.fromisoformat` returns a parsed datetime or `.error` on
ValueError.  A parsed datetime is represented by its offset from an epoch
in seconds, its calendar year (the only component the analysis inspects),
and whether it carries a timezone (aware); `datetime.now()` is naive, and
Python raises TypeError when a naive and an aware datetime are compared. -/

/-- A parsed datetime. -/
structure DT where
  sec : Int
  year : Int
  aware : Bool
deriving DecidableEq

/-- `parse_date` from utils.py: try the fixed format list in order, then
the dateutil fallback, and signal failure by `none` (the source logs a
warning and returns None; an empty string is falsy and returns None
immediately). -/
def parse_date (fmts : List (PyStr → Option PyStr)) (du : PyStr → Option PyStr)
    (s : PyStr) : Option PyStr :=
  if s.isEmpty then none
  else
    match fmts.findSome? (fun f => f s) with
    | some r => some r
    | none => du s

/-- The normalization before the strict re-parse in analyze_date_ranges:
if the normalized date contains a T, every Z is replaced by the UTC
offset. -/
def isoArg (s : PyStr) : PyStr :=
  if 'T' ∈ s then (s.map fun c => if c = 'Z' then pstr "+00:00" else [c]).flatten else s

/-- One anomaly entry of analyze_date_ranges. -/
inductive Anom where
  | future (date : PyStr) (days_ahead : Int)
  | veryOld (date : PyStr) (year : Int)
  | parseErr (date : PyStr) (err : PyStr)
deriving DecidableEq

/-- The loop body of `analyze_date_ranges` for one record: the datetimes
and anomalies it contributes, or the uncaught TypeError that Python raises
at `dt > today` when the re-parsed datetime is timezone-aware (the
`except` clause catches only ValueError and AttributeError). -/
def recStep (pd : PyStr → Option PyStr) (fi : PyStr → Except PyStr DT)
    (today : Int) (r : Record) : Except PyStr (List DT × List Anom) :=
  match r.date with
  | none => .ok ([], [])
  | some ds =>
    if ds.isEmpty then .ok ([], [])
    else
      match pd ds with
      | none => .ok ([], [])
      | some p =>
        match fi (isoArg p) with
        | .error e => .ok ([], [Anom.parseErr p e])
        | .ok dt =>
          if dt.aware then
            .error (pstr "TypeError: cannot compare offset-naive and offset-aware datetimes")
          else
            let days := Int.fdiv (dt.sec - today) 86400
            let fut := if today < dt.sec ∧ 1 < days then [Anom.future p days] else []
            let old := if dt.year < 1800 then [Anom.veryOld p dt.year] else []
            .ok ([dt], fut ++ old)

/-- The record loop of `analyze_date_ranges`, concatenating per-record
contributions and propagating an uncaught exception. -/
def drLoop (pd : PyStr → Option PyStr) (fi : PyStr → Except PyStr DT)
    (today : Int) : List Record → Except PyStr (List DT × List Anom)
  | [] => .ok ([], [])
  | r :: rs =>
    match recStep pd fi today r with
    | .error e => .error e
    | .ok x =>
      match drLoop pd fi today rs with
      | .error e => .error e
      | .ok y => .ok (x.1 ++ y.1, x.2 ++ y.2)

/-- The date-range summary. -/
structure DateRange where
  earliest : Option DT
  latest : Option DT
  anomalies : List Anom
deriving DecidableEq

/-- Python min over datetimes (first minimum by chronological order). -/
def dtMin : List DT → Option DT
  | [] => none
  | x :: xs => some (xs.foldl (fun b a => if a.sec < b.sec then a else b) x)

/-- Python max over datetimes (first maximum by chronological order). -/
def dtMax : List DT → Option DT
  | [] => none
  | x :: xs => some (xs.foldl (fun b a => if b.sec < a.sec then a else b) x)

/-- `analyze_date_ranges` from pattern_analyzer.py. -/
def analyze_date_ranges (pd : PyStr → Option PyStr) (fi : PyStr → Except PyStr DT)
    (today : Int) (records : List Record) : Except PyStr DateRange :=
  match drLoop pd fi today records with
  | .error e => .error e
  | .ok (dates, anoms) =>
    .ok { earliest := dtMin dates, latest := dtMax dates, anomalies := anoms }

/-! ## JSONL streaming (`stream_jsonl`) -/

/-- A parsed JSON value (the numeric payload is simplified to an integer;
only the top-level constructor matters to the analysed properties). -/
inductive JsonVal where
  | jNull
  | jBool (b : Bool)
  | jNum (n : Int)
  | jStr (s : PyStr)
  | jArr (xs : List JsonVal)
  | jObj (fields : List (PyStr × JsonVal))

/-- Is the JSON value an object (a mapping)? -/
def isObj : JsonVal → Bool
  | .jObj _ => true
  | _ => false

/-- Python whitespace for `str.strip()`. -/
def isPySpace (c : Char) : Bool :=
  c ∈ [' ', '\t', '\n', '\r', Char.ofNat 11, Char.ofNat 12]

/-- Python `line.strip()`. -/
def pyStrip (s : PyStr) : PyStr :=
  ((s.dropWhile isPySpace).reverse.dropWhile isPySpace).reverse

/-- The line loop of `stream_jsonl`: `jl` is the `json.loads` oracle
(`.error` models json.JSONDecodeError); the first component is the yielded
values in order, the second the logged warnings (line number and error). -/
def sjAux (jl : PyStr → Except PyStr JsonVal) :
    Nat → List PyStr → List JsonVal × List (Nat × PyStr)
  | _, [] => ([], [])
  | n, l :: ls =>
    let rest := sjAux jl (n + 1) ls
    let s := pyStrip l
    if s.isEmpty then rest
    else
      match jl s with
      | .ok v => (v :: rest.1, rest.2)
      | .error e => (rest.1, (n, e) :: rest.2)

/-- `stream_jsonl` from utils.py, applied to the lines of the file
(enumeration starts at 1). -/
def stream_jsonl (jl : PyStr → Except PyStr JsonVal) (lines : List PyStr) :
    List JsonVal × List (Nat × PyStr) :=
  sjAux jl 1 lines

/-! ## Document-type classification (`llm_classifier.py`) -/

/-- The nine standardized categories. -/
def catSALE_DEED : PyStr := pstr "SALE_DEED"

def catMORTGAGE : PyStr := pstr "MORTGAGE"

def catDEED_OF_TRUST : PyStr := pstr "DEED_OF_TRUST"

def catRELEASE : PyStr := pstr "RELEASE"

def catLIEN : PyStr := pstr "LIEN"

def catPLAT : PyStr := pstr "PLAT"

def catEASEMENT : PyStr := pstr "EASEMENT"

def catLEASE : PyStr := pstr "LEASE"

def catMISC : PyStr := pstr "MISC"

/-- STANDARD_CATEGORIES from llm_classifier.py. -/
def STANDARD_CATEGORIES : List PyStr :=
  [catSALE_DEED, catMORTGAGE, catDEED_OF_TRUST, catRELEASE, catLIEN,
   catPLAT, catEASEMENT, catLEASE, catMISC]

/-- Python `s.lower()` (ASCII). -/
def pyLower (s : PyStr) : PyStr := s.map Char.toLower

/-- Python `s.upper()` (ASCII). -/
def pyUpper (s : PyStr) : PyStr := s.map Char.toUpper

/-- Python substring containment `needle in hay` (contiguous). -/
def isSub (needle : PyStr) : PyStr → Bool
  | [] => needle.isEmpty
  | c :: cs => needle.isPrefixOf (c :: cs) || isSub needle cs

/-- `any(keyword in dt_lower for keyword in kws)`. -/
def anyKw (dl : PyStr) (kws : List PyStr) : Bool := kws.any (fun k => isSub k dl)

/-- The exact short-code trust variants tested first by the cascade. -/
def exactCodes : List PyStr :=
  [pstr "dt", pstr "d/t", pstr "d-t", pstr "d-tr", pstr "d-trust",
   pstr "sub tr", pstr "subst tr", pstr "substitution trustee"]

/-- The rule cascade of `fallback_classification`, applied to the
lower-cased, stripped doc_type value. -/
def classifyCore (dl : PyStr) : PyStr :=
  if dl ∈ exactCodes then catDEED_OF_TRUST
  else if isSub (pstr "trust") dl &&
      (isSub (pstr "deed") dl || (pstr "trust").isPrefixOf dl) then catDEED_OF_TRUST
  else if anyKw dl [pstr "mortgage", pstr "mtge", pstr "mtg", pstr "morg"] then catMORTGAGE
  else if anyKw dl [pstr "satisfaction", pstr "sat", pstr "certificate of satisfaction"] then
    catRELEASE
  else if anyKw dl [pstr "cancellation", pstr "can", pstr "cancel"] then catRELEASE
  else if anyKw dl [pstr "release", pstr "rel", pstr "partial release", pstr "rel deed"] then
    catRELEASE
  else if isSub (pstr "lien") dl || dl = pstr "judgment" || dl = pstr "judgement" then
    catLIEN
  else if anyKw dl [pstr "plat", pstr "map plat", pstr "map/r", pstr "map",
      pstr "subdivision plat"] then catPLAT
  else if isSub (pstr "lease") dl then catLEASE
  else if anyKw dl [pstr "substitute trustee", pstr "substitution trustee",
      pstr "sub tr", pstr "subst tr"] then catDEED_OF_TRUST
  else if isSub (pstr "easement") dl || isSub (pstr "right of way") dl then
    catEASEMENT
  else if anyKw dl [pstr "deed", pstr "warranty", pstr "quitclaim", pstr "grant",
      pstr "conveyance"] then
    (if isSub (pstr "trust") dl || isSub (pstr "trustee") dl then catDEED_OF_TRUST
     else if isSub (pstr "easement") dl then catEASEMENT
     else catSALE_DEED)
  else if anyKw dl [pstr "assignment", pstr "asign", pstr "assign"] then
    (if isSub (pstr "mortgage") dl || isSub (pstr "mtg") dl then catMORTGAGE
     else if isSub (pstr "trust") dl || isSub (pstr "trustee") dl then catDEED_OF_TRUST
     else catMISC)
  else if anyKw dl [pstr "power of attorney", pstr "poa"] then catMISC
  else if anyKw dl [pstr "notice", pstr "request notice", pstr "see instrument"] then catMISC
  else catMISC

/-- The per-string classification of `fallback_classification`. -/
def classifyFallback (doc_type : PyStr) : PyStr :=
  classifyCore (pyLower (pyStrip doc_type))

/-- `fallback_classification` from llm_classifier.py: a dictionary keyed by
doc_type (for duplicate keys the assigned category is identical, so the
association list with first-match lookup models the dict). -/
def fallback_classification (doc_types : List PyStr) : List (PyStr × PyStr) :=
  doc_types.map (fun dt => (dt, classifyFallback dt))

/-- Python dict lookup on the association-list model. -/
def alookup (m : List (PyStr × PyStr)) (k : PyStr) : Option PyStr :=
  (m.find? (fun p => p.1 == k)).map (·.2)

/-- Split into batches of size `n` (`doc_types[i:i+batch_size]`). -/
def chunks (n : Nat) (l : List PyStr) : List (List PyStr) :=
  if h : l = [] ∨ n = 0 then []
  else l.take n :: chunks n (l.drop n)
termination_by l.length
decreasing_by
  push_neg at h
  have h3 : l.length ≠ 0 := by simpa [List.length_eq_zero] using h.1
  simp only [List.length_drop]
  omega

/-- The per-batch handling of one LLM response: one label per line, the
label upper-cased and stripped, validated against the nine categories,
missing or invalid labels replaced by MISC. -/
def llmBatchMap (resp : List PyStr) (batch : List PyStr) : List (PyStr × PyStr) :=
  batch.enum.map fun je =>
    (je.2,
     match resp.get? je.1 with
     | some ln =>
       let c := pyUpper (pyStrip ln)
       if c ∈ STANDARD_CATEGORIES then c else catMISC
     | none => catMISC)

/-- `classify_with_llm` from llm_classifier.py.  `openaiOk` models whether
`import openai` succeeds (on failure the function re-raises); `apiKey`
whether a key is available (otherwise the rule-based fallback runs for
everything); `llm` is the external call, one response per batch with its
lines, `none` modelling a request-level exception, which falls back to the
cascade for that batch only. -/
def classify_with_llm (openaiOk apiKey : Bool)
    (llm : List PyStr → Option (List PyStr)) (doc_types : List PyStr) :
    Except Unit (List (PyStr × PyStr)) :=
  if !openaiOk then .error ()
  else if !apiKey then .ok (fallback_classification doc_types)
  else .ok ((chunks 50 doc_types).map (fun batch =>
    match llm batch with
    | some resp => llmBatchMap resp batch
    | none => batch.map (fun dt => (dt, classifyFallback dt)))).flatten

/-- Counter of truthy doc_type values over the record stream, in
first-occurrence order (`if doc_type: doc_type_counter[doc_type] += 1`). -/
def bump : List (PyStr × Nat) → PyStr → List (PyStr × Nat)
  | [], dt => [(dt, 1)]
  | (k, c) :: rest, dt => if k = dt then (k, c + 1) :: rest else (k, c) :: bump rest dt

/-- The doc_type Counter gathered from the records. -/
def docTypeCounter (records : List Record) : List (PyStr × Nat) :=
  records.foldl
    (fun m r =>
      match r.doc_type with
      | some dt => if dt.isEmpty then m else bump m dt
      | none => m) []

/-- Stable insertion for the descending-count sort of
`sorted(counter.items(), key count, reverse True)`. -/
def insertPairDesc (x : PyStr × Nat) : List (PyStr × Nat) → List (PyStr × Nat)
  | [] => [x]
  | y :: ys => if y.2 < x.2 then x :: y :: ys else y :: insertPairDesc x ys

/-- Stable descending sort by count of the counter items. -/
def sortPairsDesc (l : List (PyStr × Nat)) : List (PyStr × Nat) :=
  l.foldl (fun acc x => insertPairDesc x acc) []

/-- `sample_doc_types_strategically` from llm_classifier.py; `rand` models
`random.sample(remaining, k)` (its value does not affect the verified
properties). -/
def sample_doc_types_strategically (rand : List PyStr → Nat → List PyStr)
    (records : List Record) : List PyStr :=
  let counter := docTypeCounter records
  let uniq := counter.map (·.1)
  if uniq.length ≤ 200 then uniq
  else
    let sorted := sortPairsDesc counter
    let sampled := (sorted.take 50).map (·.1)
    let remaining := uniq.filter (fun dt => !sampled.contains dt)
    if sampled.length < 200 then
      sampled ++ rand remaining (min (200 - sampled.length) remaining.length)
    else sampled

/-- `create_mapping` from llm_classifier.py (the two output-file writes are
elided; the returned association list is the persisted complete mapping,
keyed in counter order). -/
def create_mapping (records : List Record) (use_llm openaiOk apiKey : Bool)
    (llm : List PyStr → Option (List PyStr)) (rand : List PyStr → Nat → List PyStr) :
    List (PyStr × PyStr) :=
  let sampled := sample_doc_types_strategically rand records
  let mapping :=
    if use_llm then
      match classify_with_llm openaiOk apiKey llm sampled with
      | .ok m => m
      | .error _ => fallback_classification sampled
    else fallback_classification sampled
  (docTypeCounter records).map fun p =>
    (p.1,
     match alookup mapping p.1 with
     | some c => c
     | none => classifyFallback p.1)

/-! ## Invariant of the shape buckets -/

/-- Well-formedness of the shape buckets: keys are distinct, every member
has the shape of its bucket key, and no bucket is empty. -/
def GroupsOk (gs : List (List Tok × List PyStr)) : Prop :=
  (gs.map Prod.fst).Nodup ∧ ∀ g ∈ gs, (∀ v ∈ g.2, shape v = g.1) ∧ g.2 ≠ []

/-! ## Concrete inputs and oracle instances used by witnesses and
counterexamples -/

/-- The instrument numbers of the end-to-end example in the claims. -/
def recsC1 : List Record :=
  [{ instrument_number := some (.vStr (pstr "2020001234")) },
   { instrument_number := some (.vStr (pstr "2020001235")) },
   { instrument_number := some (.vStr (pstr "AB-0012")) }]

/-- Seven instrument numbers with seven distinct shapes, one each. -/
def recs7 : List Record :=
  [{ instrument_number := some (.vStr (pstr "A")) },
   { instrument_number := some (.vStr (pstr "AA")) },
   { instrument_number := some (.vStr (pstr "AAA")) },
   { instrument_number := some (.vStr (pstr "AAAA")) },
   { instrument_number := some (.vStr (pstr "AAAAA")) },
   { instrument_number := some (.vStr (pstr "AAAAAA")) },
   { instrument_number := some (.vStr (pstr "AAAAAAA")) }]

/-- Book values 9, 10, 100 as strings. -/
def recsC7 : List Record :=
  [{ book := some (.vStr (pstr "9")) },
   { book := some (.vStr (pstr "10")) },
   { book := some (.vStr (pstr "100")) }]

/-- Parsed-datetime oracle table.  Seconds are offsets from the modelled
current instant `today = 0` standing at 2026-10-13T00:00:00 (for the
timezone-aware entry the offset is never used, because the aware flag
makes the comparison raise first). -/
def dayTable : List (PyStr × DT) :=
  [(pstr "2026-10-15T00:00:00", ⟨172800, 2026, false⟩),
   (pstr "2026-10-13T12:00:00", ⟨43200, 2026, false⟩),
   (pstr "2026-10-14T01:00:00", ⟨90000, 2026, false⟩),
   (pstr "2020-01-01T00:00:00+05:00", ⟨0, 2020, true⟩)]

/-- `datetime.fromisoformat` on the strings of the table (anything else
raises ValueError). -/
def fiX : PyStr → Except PyStr DT := fun s =>
  match dayTable.find? (fun p => p.1 == s) with
  | some p => .ok p.2
  | none => .error (pstr "Invalid isoformat string")

/-- The date normalizer restricted to the table strings: each is already
ISO-8601 and normalizes to itself. -/
def pdX : PyStr → Option PyStr := fun s =>
  if (dayTable.map Prod.fst).contains s then some s else none

/-- A strptime attempt whose format does not accept the offset-carrying
string (ValueError, hence `none`): the first naive format of parse_date. -/
def fmtNaive : PyStr → Option PyStr := fun _ => none

/-- The strptime attempt with the timezone directive: it accepts the
offset-carrying string and isoformat renders it back unchanged. -/
def fmtTZ : PyStr → Option PyStr := fun s =>
  if s = pstr "2020-01-01T00:00:00+05:00" then some s else none

/-- A format list for parse_date on the timezone-aware input. -/
def fmtsX : List (PyStr → Option PyStr) := [fmtNaive, fmtTZ]

/-- The dateutil fallback (never reached on these inputs). -/
def duX : PyStr → Option PyStr := fun _ => none

/-- A record carrying a timezone-aware date string. -/
def recAware : Record := { date := some (pstr "2020-01-01T00:00:00+05:00") }

/-- A record dated exactly 2 days ahead of the modelled current instant. -/
def rec2d : Record := { date := some (pstr "2026-10-15T00:00:00") }

/-- A record dated exactly 12 hours ahead. -/
def rec12h : Record := { date := some (pstr "2026-10-13T12:00:00") }

/-- A record dated 25 hours ahead (strictly more than 1 day). -/
def rec25h : Record := { date := some (pstr "2026-10-14T01:00:00") }

/-- `json.loads` on the line `123` (a valid JSON number); every other
input raises json.JSONDecodeError. -/
def jlX : PyStr → Except PyStr JsonVal := fun s =>
  if s = pstr "123" then .ok (.jNum 123) else .error (pstr "Expecting value")

/-- An external classification call that always fails at request level. -/
def llmNone : List PyStr → Option (List PyStr) := fun _ => none

/-- A trivial `random.sample` instance. -/
def randNil : List PyStr → Nat → List PyStr := fun _ _ => []

/-- The doc_type values of the end-to-end classification example. -/
def recsC3 : List Record :=
  [{ doc_type := some (pstr "WARRANTY DEED") },
   { doc_type := some (pstr "DEED OF TRUST") },
   { doc_type := some (pstr "MTG ASSIGNMENT") }]

/-! ## Lemmas: character classes, shapes and the compiled regex -/

lemma isAlphaC_false_of_isDigitC {c : Char} (h : isDigitC c = true) : isAlphaC c = false := by
  simp only [isDigitC, Bool.and_eq_true, decide_eq_true_eq] at h
  simp only [isAlphaC, Bool.or_eq_false_iff, Bool.and_eq_false_iff,
    decide_eq_false_iff_not, not_le]
  omega

lemma charTok_TD {c : Char} : charTok c = .TD ↔ isDigitC c = true := by
  unfold charTok
  split_ifs with h1 h2 <;> simp_all

lemma charTok_TL {c : Char} : charTok c = .TL ↔ isAlphaC c = true := by
  unfold charTok
  split_ifs with h1 h2
  · simp [isAlphaC_false_of_isDigitC h1]
  · simp [h2]
  · simp_all

lemma charTok_TLit {a c : Char} :
    charTok c = .TLit a ↔ (isDigitC c = false ∧ isAlphaC c = false ∧ c = a) := by
  unfold charTok
  split_ifs with h1 h2 <;> simp_all

lemma shape_wf {t : PyStr} {c : Char} (h : Tok.TLit c ∈ shape t) :
    isDigitC c = false ∧ isAlphaC c = false := by
  simp only [shape, List.mem_map] at h
  obtain ⟨d, _, hd⟩ := h
  obtain ⟨h1, h2, h3⟩ := charTok_TLit.mp hd
  exact ⟨h3 ▸ h1, h3 ▸ h2⟩

lemma rmatchToks_iff_shape :
    ∀ ts : List Tok, (∀ c, Tok.TLit c ∈ ts → isDigitC c = false ∧ isAlphaC c = false) →
      ∀ s : PyStr, (rmatchToks ts s = true ↔ shape s = ts) := by
  intro ts
  induction ts with
  | nil =>
    intro _ s
    cases s <;> simp [rmatchToks, shape]
  | cons t ts ih =>
    intro hwf s
    have hwf2 : ∀ c, Tok.TLit c ∈ ts → isDigitC c = false ∧ isAlphaC c = false :=
      fun c hc => hwf c (List.mem_cons_of_mem _ hc)
    cases s with
    | nil => cases t <;> simp [rmatchToks, shape]
    | cons c cs =>
      cases t with
      | TD =>
        simp only [rmatchToks, Bool.and_eq_true, shape, List.map_cons, List.cons.injEq]
        rw [ih hwf2 cs, charTok_TD]
        exact and_congr_left (fun _ => Iff.rfl)
      | TL =>
        simp only [rmatchToks, Bool.and_eq_true, shape, List.map_cons, List.cons.injEq]
        rw [ih hwf2 cs, charTok_TL]
        exact and_congr_left (fun _ => Iff.rfl)
      | TLit a =>
        have ha := hwf a (List.mem_cons_self _ _)
        simp only [rmatchToks, Bool.and_eq_true, beq_iff_eq, shape, List.map_cons,
          List.cons.injEq]
        rw [ih hwf2 cs, charTok_TLit]
        constructor
        · rintro ⟨rfl, h2⟩
          exact ⟨⟨ha.1, ha.2, rfl⟩, h2⟩
        · rintro ⟨⟨_, _, rfl⟩, h2⟩
          exact ⟨rfl, h2⟩

lemma rmatch_nil (s : PyStr) : rmatch [] s = s.isEmpty := by simp [rmatch]

lemma rmatch_RD_zero (rs : List RTok) (s : PyStr) :
    rmatch (.RD 0 :: rs) s = rmatch rs s := by simp [rmatch]

lemma rmatch_RD_succ_nil (n : Nat) (rs : List RTok) :
    rmatch (.RD (n + 1) :: rs) [] = false := by simp [rmatch]

lemma rmatch_RD_succ_cons (n : Nat) (rs : List RTok) (c : Char) (cs : PyStr) :
    rmatch (.RD (n + 1) :: rs) (c :: cs) = (isDigitC c && rmatch (.RD n :: rs) cs) := by
  simp [rmatch]

lemma rmatch_RL_zero (rs : List RTok) (s : PyStr) :
    rmatch (.RL 0 :: rs) s = rmatch rs s := by simp [rmatch]

lemma rmatch_RL_succ_nil (n : Nat) (rs : List RTok) :
    rmatch (.RL (n + 1) :: rs) [] = false := by simp [rmatch]

lemma rmatch_RL_succ_cons (n : Nat) (rs : List RTok) (c : Char) (cs : PyStr) :
    rmatch (.RL (n + 1) :: rs) (c :: cs) = (isAlphaC c && rmatch (.RL n :: rs) cs) := by
  simp [rmatch]

lemma rmatch_RLit_nil (a : Char) (rs : List RTok) :
    rmatch (.RLit a :: rs) [] = false := by simp [rmatch]

lemma rmatch_RLit_cons (a : Char) (rs : List RTok) (c : Char) (cs : PyStr) :
    rmatch (.RLit a :: rs) (c :: cs) = ((a == c) && rmatch rs cs) := by simp [rmatch]

lemma rmatch_compile_TD (ts : List Tok) (s : PyStr) :
    rmatch (compileRegex (.TD :: ts)) s =
      (match s with
       | [] => false
       | c :: cs => isDigitC c && rmatch (compileRegex ts) cs) := by
  rcases hx : compileRegex ts with _ | ⟨r, rs⟩
  · have hv : compileRegex (Tok.TD :: ts) = [.RD 1] := by simp [compileRegex, hx]
    rw [hv]
    cases s with
    | nil => simp [rmatch_RD_succ_nil]
    | cons c cs => rw [rmatch_RD_succ_cons, rmatch_RD_zero, ← hx]
  · cases r with
    | RD n =>
      have hv : compileRegex (Tok.TD :: ts) = .RD (n + 1) :: rs := by
        simp [compileRegex, hx]
      rw [hv]
      cases s with
      | nil => simp [rmatch_RD_succ_nil]
      | cons c cs => rw [rmatch_RD_succ_cons, ← hx]
    | RL n =>
      have hv : compileRegex (Tok.TD :: ts) = .RD 1 :: .RL n :: rs := by
        simp [compileRegex, hx]
      rw [hv]
      cases s with
      | nil => simp [rmatch_RD_succ_nil]
      | cons c cs => rw [rmatch_RD_succ_cons, rmatch_RD_zero, ← hx]
    | RLit a =>
      have hv : compileRegex (Tok.TD :: ts) = .RD 1 :: .RLit a :: rs := by
        simp [compileRegex, hx]
      rw [hv]
      cases s with
      | nil => simp [rmatch_RD_succ_nil]
      | cons c cs => rw [rmatch_RD_succ_cons, rmatch_RD_zero, ← hx]

lemma rmatch_compile_TL (ts : List Tok) (s : PyStr) :
    rmatch (compileRegex (.TL :: ts)) s =
      (match s with
       | [] => false
       | c :: cs => isAlphaC c && rmatch (compileRegex ts) cs) := by
  rcases hx : compileRegex ts with _ | ⟨r, rs⟩
  · have hv : compileRegex (Tok.TL :: ts) = [.RL 1] := by simp [compileRegex, hx]
    rw [hv]
    cases s with
    | nil => simp [rmatch_RL_succ_nil]
    | cons c cs => rw [rmatch_RL_succ_cons, rmatch_RL_zero, ← hx]
  · cases r with
    | RL n =>
      have hv : compileRegex (Tok.TL :: ts) = .RL (n + 1) :: rs := by
        simp [compileRegex, hx]
      rw [hv]
      cases s with
      | nil => simp [rmatch_RL_succ_nil]
      | cons c cs => rw [rmatch_RL_succ_cons, ← hx]
    | RD n =>
      have hv : compileRegex (Tok.TL :: ts) = .RL 1 :: .RD n :: rs := by
        simp [compileRegex, hx]
      rw [hv]
      cases s with
      | nil => simp [rmatch_RL_succ_nil]
      | cons c cs => rw [rmatch_RL_succ_cons, rmatch_RL_zero, ← hx]
    | RLit a =>
      have hv : compileRegex (Tok.TL :: ts) = .RL 1 :: .RLit a :: rs := by
        simp [compileRegex, hx]
      rw [hv]
      cases s with
      | nil => simp [rmatch_RL_succ_nil]
      | cons c cs => rw [rmatch_RL_succ_cons, rmatch_RL_zero, ← hx]

lemma rmatch_compileRegex : ∀ (ts : List Tok) (s : PyStr),
    rmatch (compileRegex ts) s = rmatchToks ts s := by
  intro ts
  induction ts with
  | nil => intro s; rw [show compileRegex [] = [] from rfl, rmatch_nil]; rfl
  | cons t ts ih =>
    intro s
    cases t with
    | TD =>
      rw [rmatch_compile_TD]
      cases s with
      | nil => rfl
      | cons c cs =>
        show (isDigitC c && rmatch (compileRegex ts) cs) = rmatchToks (Tok.TD :: ts) (c :: cs)
        rw [ih cs]; rfl
    | TL =>
      rw [rmatch_compile_TL]
      cases s with
      | nil => rfl
      | cons c cs =>
        show (isAlphaC c && rmatch (compileRegex ts) cs) = rmatchToks (Tok.TL :: ts) (c :: cs)
        rw [ih cs]; rfl
    | TLit a =>
      rw [show compileRegex (.TLit a :: ts) = .RLit a :: compileRegex ts from rfl]
      cases s with
      | nil => rw [rmatch_RLit_nil]; rfl
      | cons c cs => rw [rmatch_RLit_cons, ih cs]; rfl

/-- The compiled regex of a shape accepts exactly the strings of that
shape. -/
lemma rmatch_compile_shape {t s : PyStr} :
    rmatch (compileRegex (shape t)) s = true ↔ shape s = shape t := by
  rw [rmatch_compileRegex]
  exact rmatchToks_iff_shape (shape t) (fun c hc => shape_wf hc) s

/-! ## Lemmas: shape buckets and the descending sort -/

lemma addToGroups_fst (k : List Tok) (v : PyStr) :
    ∀ gs : List (List Tok × List PyStr),
      (addToGroups k v gs).map Prod.fst =
        if k ∈ gs.map Prod.fst then gs.map Prod.fst else gs.map Prod.fst ++ [k] := by
  intro gs
  induction gs with
  | nil => simp [addToGroups]
  | cons g rest ih =>
    obtain ⟨k1, vs1⟩ := g
    by_cases hk : k1 = k
    · subst hk
      simp [addToGroups]
    · by_cases hm : k ∈ rest.map Prod.fst <;>
        simp [addToGroups, hk, ih, hm, Ne.symm hk]

lemma addToGroups_mem_self (k : List Tok) (v : PyStr) :
    ∀ gs, ∃ vs, (k, vs) ∈ addToGroups k v gs ∧ v ∈ vs := by
  intro gs
  induction gs with
  | nil => exact ⟨[v], by simp [addToGroups]⟩
  | cons g rest ih =>
    obtain ⟨k1, vs1⟩ := g
    by_cases hk : k1 = k
    · subst hk
      exact ⟨vs1 ++ [v], by simp [addToGroups], by simp⟩
    · obtain ⟨vs, h1, h2⟩ := ih
      exact ⟨vs, by simp [addToGroups, hk]; right; exact h1, h2⟩

lemma addToGroups_cons_eq (k : List Tok) (v : PyStr) (k1 : List Tok) (vs1 : List PyStr)
    (rest : List (List Tok × List PyStr)) :
    addToGroups k v ((k1, vs1) :: rest) =
      if k1 = k then (k1, vs1 ++ [v]) :: rest else (k1, vs1) :: addToGroups k v rest := rfl

lemma addToGroups_sub (k : List Tok) (v : PyStr) :
    ∀ gs g, g ∈ gs → ∃ g2 ∈ addToGroups k v gs, g.1 = g2.1 ∧ ∀ x ∈ g.2, x ∈ g2.2 := by
  intro gs
  induction gs with
  | nil => intro g hg; cases hg
  | cons g1 rest ih =>
    obtain ⟨k1, vs1⟩ := g1
    intro g hg
    by_cases hk : k1 = k
    · rw [addToGroups_cons_eq, if_pos hk]
      rcases List.mem_cons.mp hg with rfl | hmem
      · exact ⟨(k1, vs1 ++ [v]), by simp, rfl, fun x hx => List.mem_append_left _ hx⟩
      · exact ⟨g, List.mem_cons_of_mem _ hmem, rfl, fun x hx => hx⟩
    · rw [addToGroups_cons_eq, if_neg hk]
      rcases List.mem_cons.mp hg with rfl | hmem
      · exact ⟨(k1, vs1), by simp, rfl, fun x hx => hx⟩
      · obtain ⟨g2, h1, h2, h3⟩ := ih g hmem
        exact ⟨g2, List.mem_cons_of_mem _ h1, h2, h3⟩

lemma addToGroups_vals {k : List Tok} {v : PyStr} (hv : shape v = k) :
    ∀ gs, (∀ g ∈ gs, (∀ x ∈ g.2, shape x = g.1) ∧ g.2 ≠ []) →
      ∀ g ∈ addToGroups k v gs, (∀ x ∈ g.2, shape x = g.1) ∧ g.2 ≠ [] := by
  intro gs
  induction gs with
  | nil =>
    intro _ g hg
    simp only [addToGroups, List.mem_singleton] at hg
    subst hg
    refine ⟨?_, by simp⟩
    intro x hx
    simp only [List.mem_singleton] at hx
    subst hx
    exact hv
  | cons g1 rest ih =>
    obtain ⟨k1, vs1⟩ := g1
    intro hall g hg
    by_cases hk : k1 = k
    · subst hk
      rw [addToGroups_cons_eq, if_pos rfl] at hg
      rcases List.mem_cons.mp hg with rfl | hg
      · refine ⟨?_, by simp⟩
        intro x hx
        rcases List.mem_append.mp hx with h | h
        · exact (hall (k1, vs1) (by simp)).1 x h
        · simp only [List.mem_singleton] at h
          subst h
          exact hv
      · exact hall g (List.mem_cons_of_mem _ hg)
    · rw [addToGroups_cons_eq, if_neg hk] at hg
      rcases List.mem_cons.mp hg with rfl | hg
      · exact hall _ (by simp)
      · exact ih (fun g2 hg2 => hall g2 (List.mem_cons_of_mem _ hg2)) g hg

lemma addToGroups_ok {gs} (h : GroupsOk gs) {k v} (hv : shape v = k) :
    GroupsOk (addToGroups k v gs) := by
  obtain ⟨hnd, hmem⟩ := h
  refine ⟨?_, addToGroups_vals hv gs hmem⟩
  rw [addToGroups_fst]
  split_ifs with hin
  · exact hnd
  · refine hnd.append (List.nodup_singleton _) ?_
    intro a ha hb
    simp only [List.mem_singleton] at hb
    subst hb
    exact hin ha

lemma patternGroups_fold_ok :
    ∀ (ins : List PyStr) (acc), GroupsOk acc →
      GroupsOk (ins.foldl
        (fun gs s => if startsWithBp s then gs else addToGroups (shape s) s gs) acc) := by
  intro ins
  induction ins with
  | nil => intro acc h; exact h
  | cons i ins ih =>
    intro acc h
    simp only [List.foldl_cons]
    by_cases hbp : startsWithBp i
    · simpa [hbp] using ih acc h
    · simpa [hbp] using ih _ (addToGroups_ok h rfl)

lemma GroupsOk_patternGroups (ins : List PyStr) : GroupsOk (patternGroups ins) :=
  patternGroups_fold_ok ins [] ⟨by simp, by simp⟩

lemma patternGroups_fold_covers :
    ∀ (ins : List PyStr) (acc) (s : PyStr),
      ((∃ g ∈ acc, s ∈ g.2) ∨ (s ∈ ins ∧ startsWithBp s = false)) →
      ∃ g ∈ ins.foldl
        (fun gs s => if startsWithBp s then gs else addToGroups (shape s) s gs) acc,
        s ∈ g.2 := by
  intro ins
  induction ins with
  | nil =>
    intro acc s h
    rcases h with h | ⟨h, _⟩
    · exact h
    · cases h
  | cons i ins ih =>
    intro acc s h
    simp only [List.foldl_cons]
    by_cases hbp : startsWithBp i
    · simp only [hbp, if_true]
      refine ih acc s ?_
      rcases h with h | ⟨hmem, hsbp⟩
      · exact Or.inl h
      · rcases List.mem_cons.mp hmem with rfl | hmem2
        · rw [hbp] at hsbp; cases hsbp
        · exact Or.inr ⟨hmem2, hsbp⟩
    · simp only [hbp, if_false]
      refine ih _ s ?_
      rcases h with h | ⟨hmem, hsbp⟩
      · obtain ⟨g, hg, hsg⟩ := h
        obtain ⟨g2, hg2, _, hsub⟩ := addToGroups_sub (shape i) i acc g hg
        exact Or.inl ⟨g2, hg2, hsub s hsg⟩
      · rcases List.mem_cons.mp hmem with rfl | hmem2
        · obtain ⟨vs, h1, h2⟩ := addToGroups_mem_self (shape s) s acc
          exact Or.inl ⟨(shape s, vs), h1, h2⟩
        · exact Or.inr ⟨hmem2, hsbp⟩

lemma patternGroups_covers {ins : List PyStr} {s : PyStr}
    (hmem : s ∈ ins) (hsbp : startsWithBp s = false) :
    ∃ g ∈ patternGroups ins, s ∈ g.2 :=
  patternGroups_fold_covers ins [] s (Or.inr ⟨hmem, hsbp⟩)

lemma addToGroups_sum (k : List Tok) (v : PyStr) :
    ∀ gs, ((addToGroups k v gs).map (fun g => g.2.length)).sum =
      (gs.map (fun g => g.2.length)).sum + 1 := by
  intro gs
  induction gs with
  | nil => simp [addToGroups]
  | cons g1 rest ih =>
    obtain ⟨k1, vs1⟩ := g1
    by_cases hk : k1 = k
    · subst hk; simp [addToGroups]; omega
    · simp [addToGroups, hk, ih]; omega

lemma patternGroups_fold_sum :
    ∀ (ins : List PyStr) (acc),
      ((ins.foldl
        (fun gs s => if startsWithBp s then gs else addToGroups (shape s) s gs) acc).map
          (fun g => g.2.length)).sum =
        (acc.map (fun g => g.2.length)).sum +
          (ins.filter (fun s => !startsWithBp s)).length := by
  intro ins
  induction ins with
  | nil => intro acc; simp
  | cons i ins ih =>
    intro acc
    simp only [List.foldl_cons, List.filter_cons]
    by_cases hbp : startsWithBp i
    · simp [hbp, ih acc]
    · simp [hbp, ih (addToGroups (shape i) i acc), addToGroups_sum]
      omega

lemma patternGroups_sum (ins : List PyStr) :
    ((patternGroups ins).map (fun g => g.2.length)).sum =
      (ins.filter (fun s => !startsWithBp s)).length := by
  simpa using patternGroups_fold_sum ins []

lemma insertByCountDesc_perm (x : PatternGroup) :
    ∀ l, (insertByCountDesc x l).Perm (x :: l) := by
  intro l
  induction l with
  | nil => exact List.Perm.refl _
  | cons y ys ih =>
    unfold insertByCountDesc
    split_ifs
    · exact List.Perm.refl _
    · exact (ih.cons y).trans (List.Perm.swap x y ys)

lemma sortFold_perm :
    ∀ (l acc : List PatternGroup),
      (l.foldl (fun a x => insertByCountDesc x a) acc).Perm (acc ++ l) := by
  intro l
  induction l with
  | nil => intro acc; simp
  | cons x l ih =>
    intro acc
    simp only [List.foldl_cons]
    refine (ih (insertByCountDesc x acc)).trans ?_
    refine (((insertByCountDesc_perm x acc).append_right l).trans ?_)
    exact List.perm_middle.symm

lemma sortByCountDesc_perm (l : List PatternGroup) : (sortByCountDesc l).Perm l := by
  simpa using sortFold_perm l []

/-! ## Lemmas: rounding bound -/

lemma rheNat_le (a b : Nat) (hb : 0 < b) : 2 * (b * rheNat a b) ≤ 2 * a + b := by
  have hd := Nat.div_add_mod a b
  have hm : a % b < b := Nat.mod_lt a hb
  unfold rheNat
  split_ifs with h1 h2 h3
  · set X := b * (a / b) with hX
    omega
  · rw [Nat.mul_add, Nat.mul_one]
    set X := b * (a / b) with hX
    omega
  · set X := b * (a / b) with hX
    omega
  · rw [Nat.mul_add, Nat.mul_one]
    set X := b * (a / b) with hX
    omega

lemma sum_pct_bound (T : Nat) (hT : 0 < T) :
    ∀ l : List (List Tok × List PyStr),
      2 * (T * (l.map (fun g => percentageCenti g.2.length T)).sum) ≤
        20000 * (l.map (fun g => g.2.length)).sum + l.length * T := by
  intro l
  induction l with
  | nil => simp
  | cons g l ih =>
    simp only [List.map_cons, List.sum_cons, List.length_cons]
    have h1 := rheNat_le (10000 * g.2.length) T hT
    have hp : percentageCenti g.2.length T = rheNat (10000 * g.2.length) T := by
      simp [percentageCenti, hT]
    rw [hp, Nat.mul_add T, Nat.mul_add 2, Nat.mul_add 20000, Nat.add_mul, Nat.one_mul]
    set A := T * rheNat (10000 * g.2.length) T with hA
    set B := T * (l.map (fun g => percentageCenti g.2.length T)).sum with hB
    set K := l.length * T with hK
    omega

/-! ## Claim C1 -/

/-- Claim C1 counterexample: on instrument numbers 2020001234, 2020001235,
AB-0012 the readable signatures reported by analyze_instrument_patterns
are the per-character strings DDDDDDDDDD (count 2) and LL\-DDDD (count 1),
not the collapsed D and LL\-D claimed. -/
theorem claim_C1_counterexample :
    ((analyze_instrument_patterns recsC1).map (fun g => (g.pattern, g.count)) =
      [(pstr "DDDDDDDDDD", 2), (pstr "LL\\-DDDD", 1)]) ∧
    pstr "DDDDDDDDDD" ≠ pstr "D" ∧ pstr "LL\\-DDDD" ≠ pstr "LL\\-D" := by
  decide

/-- Claim C1 amended: the readable pattern keeps one D or L token per
character (runs are not collapsed; only the regex collapses runs into
quantifiers), so the two groups of the example are DDDDDDDDDD with regex
run \d of size 10 (count 2, 66.67 percent) and LL\-DDDD with regex runs
letters 2, literal hyphen, digits 4 (count 1, 33.33 percent). -/
theorem claim_C1 :
    analyze_instrument_patterns recsC1 =
      [{ pattern := pstr "DDDDDDDDDD", regex := [.RD 10], ex := pstr "2020001234",
         count := 2, percentage_centi := 6667 },
       { pattern := pstr "LL\\-DDDD", regex := [.RL 2, .RLit '-', .RD 4],
         ex := pstr "AB-0012", count := 1, percentage_centi := 3333 }] := by
  decide

/-! ## Claim C2 -/

/-- Claim C2: for a nonempty set of qualifying instrument numbers, none
carrying the excluded marker, the shape buckets cover every string, any
two buckets containing a common string coincide (partition), each bucket's
compiled anchored regex accepts every member of the bucket and rejects at
least one member of any other bucket, and the reported pattern list is the
count-descending sort of exactly these buckets. -/
theorem claim_C2 (records : List Record)
    (hne : instrumentNumbers records ≠ [])
    (hbp : ∀ s ∈ instrumentNumbers records, startsWithBp s = false) :
    (∀ s ∈ instrumentNumbers records,
      ∃ g ∈ patternGroups (instrumentNumbers records), s ∈ g.2) ∧
    (∀ g ∈ patternGroups (instrumentNumbers records),
      ∀ g2 ∈ patternGroups (instrumentNumbers records),
      ∀ s, s ∈ g.2 → s ∈ g2.2 → g = g2) ∧
    (∀ g ∈ patternGroups (instrumentNumbers records),
      ∀ s ∈ g.2, rmatch (compileRegex g.1) s = true) ∧
    (∀ g ∈ patternGroups (instrumentNumbers records),
      ∀ g2 ∈ patternGroups (instrumentNumbers records), g ≠ g2 →
      ∃ s ∈ g2.2, rmatch (compileRegex g.1) s = false) ∧
    analyze_instrument_patterns records =
      sortByCountDesc ((patternGroups (instrumentNumbers records)).map
        (mkPatternGroup ((instrumentNumbers records).filter
          (fun s => !startsWithBp s)).length)) := by
  obtain ⟨hnd, hvals⟩ := GroupsOk_patternGroups (instrumentNumbers records)
  refine ⟨?_, ?_, ?_, ?_, ?_⟩
  · intro s hs
    exact patternGroups_covers hs (hbp s hs)
  · intro g hg g2 hg2 s hsg hsg2
    have h1 : shape s = g.1 := (hvals g hg).1 s hsg
    have h2 : shape s = g2.1 := (hvals g2 hg2).1 s hsg2
    exact List.inj_on_of_nodup_map hnd hg hg2 (h1.symm.trans h2)
  · intro g hg s hsg
    have h1 : shape s = g.1 := (hvals g hg).1 s hsg
    rw [← h1]
    exact rmatch_compile_shape.mpr rfl
  · intro g hg g2 hg2 hne2
    obtain ⟨s, hs⟩ := List.exists_mem_of_ne_nil _ (hvals g2 hg2).2
    refine ⟨s, hs, ?_⟩
    have h2 : shape s = g2.1 := (hvals g2 hg2).1 s hs
    obtain ⟨m, hm⟩ := List.exists_mem_of_ne_nil _ (hvals g hg).2
    have h1 : shape m = g.1 := (hvals g hg).1 m hm
    rw [← h1]
    cases hmatch : rmatch (compileRegex (shape m)) s with
    | false => rfl
    | true =>
      exfalso
      have h3 : shape s = shape m := rmatch_compile_shape.mp hmatch
      have h4 : g.1 = g2.1 := by rw [← h1, ← h3, h2]
      exact hne2 (List.inj_on_of_nodup_map hnd hg hg2 h4)
  · have hF : (instrumentNumbers records).isEmpty = false := by
      cases h : instrumentNumbers records with
      | nil => exact absurd h hne
      | cons a as => rfl
    simp [analyze_instrument_patterns, hF]

/-- Claim C2 witness: the theorem applied to the concrete example records. -/
theorem claim_C2_witness :
    (instrumentNumbers recsC1 ≠ [] ∧
      ∀ s ∈ instrumentNumbers recsC1, startsWithBp s = false) ∧
    (∀ s ∈ instrumentNumbers recsC1,
      ∃ g ∈ patternGroups (instrumentNumbers recsC1), s ∈ g.2) :=
  ⟨⟨by decide, by decide⟩, (claim_C2 recsC1 (by decide) (by decide)).1⟩

/-! ## Claim C9 -/

/-- Claim C9 counterexample: seven instrument numbers of seven distinct
shapes give reported percentages of 14.29 each, summing to 100.03, above
100. -/
theorem claim_C9_counterexample :
    10000 < ((analyze_instrument_patterns recs7).map (fun g => g.percentage_centi)).sum := by
  decide

/-- Claim C9 amended: the reported percentages (in exact hundredths) sum
to at most 100 plus 0.005 per pattern group, because each group's exact
share is rounded to two decimals and the exact shares sum to 100; when the
representative total is zero the percentage is 0 rather than a division
error. -/
theorem claim_C9 (records : List Record) :
    2 * ((analyze_instrument_patterns records).map (fun g => g.percentage_centi)).sum ≤
      20000 + (analyze_instrument_patterns records).length ∧
    ∀ c : Nat, percentageCenti c 0 = 0 := by
  refine ⟨?_, fun c => by simp [percentageCenti]⟩
  cases hins : (instrumentNumbers records).isEmpty with
  | true => simp [analyze_instrument_patterns, hins]
  | false =>
    have heq : analyze_instrument_patterns records =
        sortByCountDesc ((patternGroups (instrumentNumbers records)).map
          (mkPatternGroup ((instrumentNumbers records).filter
            (fun s => !startsWithBp s)).length)) := by
      simp [analyze_instrument_patterns, hins]
    rw [heq]
    set ins := instrumentNumbers records with hinsdef
    set T := (ins.filter (fun s => !startsWithBp s)).length with hTdef
    set gs := patternGroups ins with hgsdef
    have hperm := sortByCountDesc_perm (gs.map (mkPatternGroup T))
    rw [(hperm.map (fun g => g.percentage_centi)).sum_eq, hperm.length_eq,
      List.map_map, List.length_map]
    have hcomp : ((fun g : PatternGroup => g.percentage_centi) ∘ mkPatternGroup T) =
        fun g : List Tok × List PyStr => percentageCenti g.2.length T := rfl
    rw [hcomp]
    have hsum2 : ((gs.map (fun g => g.2.length)).sum) = T := by
      rw [hgsdef, hTdef]
      exact patternGroups_sum ins
    rcases Nat.eq_zero_or_pos T with hT0 | hTpos
    · cases hgs2 : gs with
      | nil => simp
      | cons g rest =>
        exfalso
        have hok := GroupsOk_patternGroups ins
        rw [← hgsdef, hgs2] at hok
        have hgnil : g.2 ≠ [] := (hok.2 g (by simp)).2
        rw [hgs2] at hsum2
        rw [hT0] at hsum2
        simp only [List.map_cons, List.sum_cons] at hsum2
        have : g.2.length = 0 := by omega
        exact hgnil (List.length_eq_zero.mp this)
    · have hb := sum_pct_bound T hTpos gs
      rw [hsum2] at hb
      have h2 : T * (2 * (gs.map (fun g => percentageCenti g.2.length T)).sum) ≤
          T * (20000 + gs.length) := by
        calc T * (2 * (gs.map (fun g => percentageCenti g.2.length T)).sum)
            = 2 * (T * (gs.map (fun g => percentageCenti g.2.length T)).sum) := by ring
          _ ≤ 20000 * T + gs.length * T := hb
          _ = T * (20000 + gs.length) := by ring
      exact Nat.le_of_mul_le_mul_left h2 hTpos

/-! ## Lemmas: the length-then-lexicographic order -/

lemma char_eq_of_toNat {a b : Char} (h : a.toNat = b.toNat) : a = b :=
  Char.eq_of_val_eq (UInt32.toNat.inj h)

lemma strLt_cons_iff {x y : Char} {as bs : PyStr} :
    strLt (x :: as) (y :: bs) = true ↔
      (x.toNat < y.toNat ∨ (x.toNat = y.toNat ∧ strLt as bs = true)) := by
  simp only [strLt]
  split_ifs with h1 h2
  · simp [h1]
  · refine ⟨(fun h => nomatch h), fun h => ?_⟩
    exfalso
    rcases h with h | ⟨h, _⟩ <;> omega
  · have hxy : x.toNat = y.toNat := by omega
    constructor
    · intro h
      exact Or.inr ⟨hxy, h⟩
    · intro h
      rcases h with h | ⟨_, h⟩
      · exact absurd h h1
      · exact h

lemma strLt_irrefl (a : PyStr) : strLt a a = false := by
  induction a with
  | nil => rfl
  | cons c cs ih => simp [strLt, ih]

lemma strLt_trans : ∀ a b c : PyStr, strLt a b = true → strLt b c = true →
    strLt a c = true := by
  intro a
  induction a with
  | nil =>
    intro b c hab hbc
    cases b with
    | nil => cases hab
    | cons y bs =>
      cases c with
      | nil => cases hbc
      | cons z cs2 => rfl
  | cons x as ih =>
    intro b c hab hbc
    cases b with
    | nil => cases hab
    | cons y bs =>
      cases c with
      | nil => cases hbc
      | cons z cs2 =>
        rw [strLt_cons_iff] at hab hbc ⊢
        rcases hab with h1 | ⟨h1, h1s⟩ <;> rcases hbc with h2 | ⟨h2, h2s⟩
        · exact Or.inl (by omega)
        · exact Or.inl (by omega)
        · exact Or.inl (by omega)
        · exact Or.inr ⟨by omega, ih bs cs2 h1s h2s⟩

lemma strLt_conn : ∀ a b : PyStr, strLt a b = false → strLt b a = false → a = b := by
  intro a
  induction a with
  | nil =>
    intro b hab _
    cases b with
    | nil => rfl
    | cons y bs => cases hab
  | cons x as ih =>
    intro b hab hba
    cases b with
    | nil => cases hba
    | cons y bs =>
      have hab2 := hab
      have hba2 := hba
      rw [← Bool.not_eq_true, strLt_cons_iff] at hab2 hba2
      push_neg at hab2 hba2
      have hxy : x.toNat = y.toNat := by omega
      have has : strLt as bs = false := by
        cases h : strLt as bs
        · rfl
        · exact absurd h (hab2.2 hxy)
      have hbs : strLt bs as = false := by
        cases h : strLt bs as
        · rfl
        · exact absurd h (hba2.2 hxy.symm)
      rw [char_eq_of_toNat hxy, ih bs has hbs]

lemma keyLt_iff {a b : PyStr} :
    keyLt a b = true ↔
      (a.length < b.length ∨ (a.length = b.length ∧ strLt a b = true)) := by
  simp only [keyLt]
  split_ifs with h1 h2
  · simp [h1]
  · refine ⟨(fun h => nomatch h), fun h => ?_⟩
    exfalso
    rcases h with h | ⟨h, _⟩ <;> omega
  · have hxy : a.length = b.length := by omega
    constructor
    · intro h
      exact Or.inr ⟨hxy, h⟩
    · intro h
      rcases h with h | ⟨_, h⟩
      · exact absurd h h1
      · exact h

lemma keyLt_irrefl (a : PyStr) : keyLt a a = false := by
  cases h : keyLt a a
  · rfl
  · rw [keyLt_iff] at h
    rcases h with h | ⟨_, h⟩
    · exact absurd h (lt_irrefl _)
    · rw [strLt_irrefl] at h
      cases h

lemma keyLt_trans {a b c : PyStr} (hab : keyLt a b = true) (hbc : keyLt b c = true) :
    keyLt a c = true := by
  rw [keyLt_iff] at hab hbc ⊢
  rcases hab with h1 | ⟨h1, h1s⟩ <;> rcases hbc with h2 | ⟨h2, h2s⟩
  · exact Or.inl (by omega)
  · exact Or.inl (by omega)
  · exact Or.inl (by omega)
  · exact Or.inr ⟨by omega, strLt_trans a b c h1s h2s⟩

lemma keyLt_conn {a b : PyStr} (hab : keyLt a b = false) (hba : keyLt b a = false) :
    a = b := by
  have hab2 := hab
  have hba2 := hba
  rw [← Bool.not_eq_true, keyLt_iff] at hab2 hba2
  push_neg at hab2 hba2
  have hl : a.length = b.length := by omega
  have has : strLt a b = false := by
    cases h : strLt a b
    · rfl
    · exact absurd h (hab2.2 hl)
  have hbs : strLt b a = false := by
    cases h : strLt b a
    · rfl
    · exact absurd h (hba2.2 hl.symm)
  exact strLt_conn a b has hbs

/-! ## Lemmas: Python min and max with a key -/

lemma foldlMin_mem (lt : PyStr → PyStr → Bool) :
    ∀ (xs : List PyStr) (x : PyStr),
      xs.foldl (fun b a => if lt a b then a else b) x ∈ x :: xs := by
  intro xs
  induction xs with
  | nil => intro x; simp
  | cons a xs ih =>
    intro x
    simp only [List.foldl_cons]
    by_cases h : lt a x = true
    · rw [if_pos h]
      rcases List.mem_cons.mp (ih a) with h2 | h2
      · simp [h2]
      · simp [h2]
    · rw [if_neg h]
      rcases List.mem_cons.mp (ih x) with h2 | h2
      · simp [h2]
      · simp [h2]

lemma foldlMin_le (lt : PyStr → PyStr → Bool)
    (htrans : ∀ a b c, lt a b = true → lt b c = true → lt a c = true)
    (hirr : ∀ a, lt a a = false)
    (hconn : ∀ a b, lt a b = false → lt b a = false → a = b) :
    ∀ (xs : List PyStr) (x y : PyStr), y ∈ x :: xs →
      lt y (xs.foldl (fun b a => if lt a b then a else b) x) = false := by
  intro xs
  induction xs with
  | nil =>
    intro x y hy
    simp only [List.mem_singleton] at hy
    subst hy
    exact hirr y
  | cons a xs ih =>
    intro x y hy
    simp only [List.foldl_cons]
    by_cases hax : lt a x = true
    · rw [if_pos hax]
      rcases List.mem_cons.mp hy with rfl | hy2
      · -- y = x; the accumulator became a with lt a x
        cases hres : lt y (xs.foldl (fun b a => if lt a b then a else b) a)
        · rfl
        · exfalso
          have hacc := ih a a (by simp)
          have := htrans a y _ hax hres
          rw [this] at hacc
          cases hacc
      · rcases List.mem_cons.mp hy2 with rfl | hy3
        · exact ih y y (by simp)
        · exact ih a y (List.mem_cons_of_mem _ hy3)
    · rw [if_neg hax]
      have hax2 : lt a x = false := by
        cases h : lt a x
        · rfl
        · exact absurd h hax
      rcases List.mem_cons.mp hy with rfl | hy2
      · exact ih y y (by simp)
      · rcases List.mem_cons.mp hy2 with rfl | hy3
        · -- y = a, accumulator stays x with lt a x = false
          cases hres : lt y (xs.foldl (fun b a => if lt a b then a else b) x)
          · rfl
          · exfalso
            have hacc := ih x x (by simp)
            by_cases hxa : lt x y = true
            · have := htrans x y _ hxa hres
              rw [this] at hacc
              cases hacc
            · have hxa2 : lt x y = false := by
                cases h : lt x y
                · rfl
                · exact absurd h hxa
              have : y = x := hconn y x hax2 hxa2
              subst this
              rw [hres] at hacc
              cases hacc
        · exact ih x y (List.mem_cons_of_mem _ hy3)

/-! ## Claim C7 -/

/-- Claim C7: analyze_book_page_patterns reports the characterizations of
the gathered book and page value lists, and for a nonempty value list the
min_value and max_value fields are members that no element precedes
(respectively succeeds) under the length-then-lexicographic comparison
keyLt, i.e. they are the minimum and maximum under that order. -/
theorem claim_C7 (records : List Record) :
    (analyze_book_page_patterns records =
      (if (bookStrs records).isEmpty then []
       else [mkFieldPattern (pstr "book") (bookStrs records)]) ++
      (if (pageStrs records).isEmpty then []
       else [mkFieldPattern (pstr "page") (pageStrs records)])) ∧
    ∀ (name : PyStr) (vals : List PyStr), vals ≠ [] →
      (∃ m, (mkFieldPattern name vals).min_value = some m ∧ m ∈ vals ∧
        ∀ b ∈ vals, keyLt b m = false) ∧
      (∃ M, (mkFieldPattern name vals).max_value = some M ∧ M ∈ vals ∧
        ∀ b ∈ vals, keyLt M b = false) := by
  refine ⟨rfl, ?_⟩
  intro name vals hne
  cases vals with
  | nil => exact absurd rfl hne
  | cons x xs =>
    constructor
    · refine ⟨xs.foldl (fun b a => if keyLt a b then a else b) x, rfl,
        foldlMin_mem keyLt xs x, ?_⟩
      intro b hb
      exact foldlMin_le keyLt (fun _ _ _ hab hbc => keyLt_trans hab hbc)
        (fun a => keyLt_irrefl a) (fun _ _ hab hba => keyLt_conn hab hba) xs x b hb
    · refine ⟨xs.foldl (fun b a => if keyLt b a then a else b) x, rfl,
        foldlMin_mem (fun a b => keyLt b a) xs x, ?_⟩
      intro b hb
      exact foldlMin_le (fun a b => keyLt b a)
        (fun _ _ _ hab hbc => keyLt_trans hbc hab)
        (fun a => keyLt_irrefl a)
        (fun _ _ hab hba => keyLt_conn hba hab) xs x b hb

/-- Claim C7 witness: on book values 9, 10, 100 the reported minimum is 9
and the maximum is 100 under the length-then-lexicographic rule. -/
theorem claim_C7_witness :
    (analyze_book_page_patterns recsC7 =
      [mkFieldPattern (pstr "book") [pstr "9", pstr "10", pstr "100"]] ∧
     (mkFieldPattern (pstr "book") [pstr "9", pstr "10", pstr "100"]).min_value =
       some (pstr "9") ∧
     (mkFieldPattern (pstr "book") [pstr "9", pstr "10", pstr "100"]).max_value =
       some (pstr "100")) ∧
    ((∃ m, (mkFieldPattern (pstr "book")
        [pstr "9", pstr "10", pstr "100"]).min_value = some m ∧
        m ∈ [pstr "9", pstr "10", pstr "100"] ∧
        ∀ b ∈ [pstr "9", pstr "10", pstr "100"], keyLt b m = false) ∧
     (∃ M, (mkFieldPattern (pstr "book")
        [pstr "9", pstr "10", pstr "100"]).max_value = some M ∧
        M ∈ [pstr "9", pstr "10", pstr "100"] ∧
        ∀ b ∈ [pstr "9", pstr "10", pstr "100"], keyLt M b = false)) :=
  ⟨⟨by decide, by decide, by decide⟩,
   (claim_C7 recsC7).2 (pstr "book") [pstr "9", pstr "10", pstr "100"] (by decide)⟩

/-! ## Claim C8 -/

lemma natRepr_ne_nil (n : Nat) : natRepr n ≠ [] := by
  unfold natRepr natReprAux
  split_ifs
  · simp
  · simp

lemma pyStrOf_ne_nil {v : PyVal} (ht : truthy v = true) : pyStrOf v ≠ [] := by
  cases v with
  | vStr s =>
    simp only [truthy, Bool.not_eq_true'] at ht
    simpa [pyStrOf] using List.isEmpty_eq_false.mp ht
  | vInt n =>
    simp only [pyStrOf]
    split_ifs
    · simp
    · exact natRepr_ne_nil _

lemma fieldStr_str (v : PyVal) (ht : truthy v = true) :
    fieldStr (some (.vStr (pyStrOf v))) = fieldStr (some v) := by
  have h1 : truthy (.vStr (pyStrOf v)) = true := by
    have hne := pyStrOf_ne_nil ht
    cases h : (pyStrOf v).isEmpty
    · simp [truthy, h]
    · exact absurd (List.isEmpty_iff.mp h) hne
  show (if truthy (.vStr (pyStrOf v)) then some (pyStrOf (.vStr (pyStrOf v))) else none) =
    (if truthy v then some (pyStrOf v) else none)
  rw [if_pos h1, if_pos ht]
  rfl

/-- Claim C8 counterexample: a record with book value 0 is skipped (0 is
falsy), while book value "0" is characterized, so a numeric value and its
string form do not classify identically. -/
theorem claim_C8_counterexample :
    pyStrOf (.vInt 0) = pstr "0" ∧
    analyze_book_page_patterns [{ book := some (.vInt 0) }] = [] ∧
    analyze_book_page_patterns [{ book := some (.vStr (pstr "0")) }] =
      [mkFieldPattern (pstr "book") [pstr "0"]] ∧
    ([] : List FieldPattern) ≠ [mkFieldPattern (pstr "book") [pstr "0"]] :=
  ⟨by decide, by decide, by decide, by decide⟩

/-- Claim C8 amended: replacing a record's book or page value by its string
representation leaves the characterization unchanged provided the value is
truthy (nonzero and nonempty); the falsy values 0 and the empty string are
skipped while their string forms "0" is kept, which is the only
divergence. -/
theorem claim_C8 (l1 l2 : List Record) (r : Record) (v : PyVal)
    (ht : truthy v = true) :
    (r.book = some v →
      analyze_book_page_patterns
          (l1 ++ { r with book := some (.vStr (pyStrOf v)) } :: l2) =
        analyze_book_page_patterns (l1 ++ r :: l2)) ∧
    (r.page = some v →
      analyze_book_page_patterns
          (l1 ++ { r with page := some (.vStr (pyStrOf v)) } :: l2) =
        analyze_book_page_patterns (l1 ++ r :: l2)) := by
  constructor
  · intro hbook
    have h1 : bookStrs (l1 ++ { r with book := some (.vStr (pyStrOf v)) } :: l2) =
        bookStrs (l1 ++ r :: l2) := by
      simp only [bookStrs, List.filterMap_append, List.filterMap_cons]
      rw [hbook, fieldStr_str v ht]
    have h2 : pageStrs (l1 ++ { r with book := some (.vStr (pyStrOf v)) } :: l2) =
        pageStrs (l1 ++ r :: l2) := by
      simp only [pageStrs, List.filterMap_append, List.filterMap_cons]
    simp only [analyze_book_page_patterns, h1, h2]
  · intro hpage
    have h1 : pageStrs (l1 ++ { r with page := some (.vStr (pyStrOf v)) } :: l2) =
        pageStrs (l1 ++ r :: l2) := by
      simp only [pageStrs, List.filterMap_append, List.filterMap_cons]
      rw [hpage, fieldStr_str v ht]
    have h2 : bookStrs (l1 ++ { r with page := some (.vStr (pyStrOf v)) } :: l2) =
        bookStrs (l1 ++ r :: l2) := by
      simp only [bookStrs, List.filterMap_append, List.filterMap_cons]
    simp only [analyze_book_page_patterns, h1, h2]

/-- Claim C8 witness: the theorem applied to the truthy value 7. -/
theorem claim_C8_witness :
    truthy (.vInt 7) = true ∧
    analyze_book_page_patterns [{ book := some (.vStr (pyStrOf (.vInt 7))) }] =
      analyze_book_page_patterns [{ book := some (.vInt 7) }] :=
  ⟨by decide,
   (claim_C8 [] [] { book := some (.vInt 7) } (.vInt 7) (by decide)).1 rfl⟩

/-! ## Lemmas: classifier range -/

lemma mem_ite {α : Type} {c : Prop} [Decidable c] {a b : α} {l : List α}
    (ha : a ∈ l) (hb : b ∈ l) : (if c then a else b) ∈ l := by
  split_ifs <;> assumption

lemma classifyCore_mem (dl : PyStr) : classifyCore dl ∈ STANDARD_CATEGORIES := by
  delta classifyCore
  repeat' apply mem_ite
  all_goals decide

lemma classifyFallback_mem (dt : PyStr) : classifyFallback dt ∈ STANDARD_CATEGORIES :=
  classifyCore_mem _

lemma fallback_values {doc_types : List PyStr} :
    ∀ p ∈ fallback_classification doc_types, p.2 ∈ STANDARD_CATEGORIES := by
  intro p hp
  simp only [fallback_classification, List.mem_map] at hp
  obtain ⟨dt, _, rfl⟩ := hp
  exact classifyFallback_mem dt

lemma llmBatchMap_values {resp batch : List PyStr} :
    ∀ p ∈ llmBatchMap resp batch, p.2 ∈ STANDARD_CATEGORIES := by
  intro p hp
  simp only [llmBatchMap, List.mem_map] at hp
  obtain ⟨je, _, rfl⟩ := hp
  dsimp only
  cases resp.get? je.1 with
  | none => decide
  | some ln =>
    dsimp only
    split_ifs with h
    · exact h
    · decide

lemma classify_with_llm_values {openaiOk apiKey : Bool}
    {llm : List PyStr → Option (List PyStr)} {dts : List PyStr}
    {m : List (PyStr × PyStr)}
    (h : classify_with_llm openaiOk apiKey llm dts = .ok m) :
    ∀ p ∈ m, p.2 ∈ STANDARD_CATEGORIES := by
  unfold classify_with_llm at h
  split_ifs at h with h1 h2
  · cases h
    exact fallback_values
  · cases h
    intro p hp
    rw [List.mem_flatten] at hp
    obtain ⟨batchRes, hb, hpb⟩ := hp
    rw [List.mem_map] at hb
    obtain ⟨batch, _, rfl⟩ := hb
    cases hresp : llm batch with
    | some resp =>
      rw [hresp] at hpb
      exact llmBatchMap_values p hpb
    | none =>
      rw [hresp] at hpb
      simp only [List.mem_map] at hpb
      obtain ⟨dt, _, rfl⟩ := hpb
      exact classifyFallback_mem dt

lemma alookup_mem {m : List (PyStr × PyStr)} {k c : PyStr}
    (h : alookup m k = some c) : ∃ p ∈ m, p.2 = c := by
  unfold alookup at h
  cases hf : m.find? (fun p => p.1 == k) with
  | none => rw [hf] at h; cases h
  | some p =>
    rw [hf] at h
    exact ⟨p, List.mem_of_find?_eq_some hf, Option.some.inj h⟩

lemma mappingStage_values (use_llm openaiOk apiKey : Bool)
    (llm : List PyStr → Option (List PyStr)) (sampled : List PyStr) :
    ∀ p ∈ (if use_llm then
        match classify_with_llm openaiOk apiKey llm sampled with
        | .ok m => m
        | .error _ => fallback_classification sampled
      else fallback_classification sampled), p.2 ∈ STANDARD_CATEGORIES := by
  split_ifs with hu
  · cases hc : classify_with_llm openaiOk apiKey llm sampled with
    | ok m => simpa [hc] using classify_with_llm_values hc
    | error e => simpa [hc] using fallback_values
  · exact fallback_values

/-! ## Claim C3 -/

/-- Claim C3: with or without the LLM accelerant (any oracle behavior, any
sampling randomness), the completed mapping of create_mapping has exactly
one entry per distinct truthy doc_type value of the input, in counter
order, and every mapped value is one of the nine standardized categories
(the cascade's final branch and the validation of LLM labels both default
to MISC). -/
theorem claim_C3 (records : List Record) (use_llm openaiOk apiKey : Bool)
    (llm : List PyStr → Option (List PyStr)) (rand : List PyStr → Nat → List PyStr) :
    ((create_mapping records use_llm openaiOk apiKey llm rand).map Prod.fst =
      (docTypeCounter records).map Prod.fst) ∧
    ∀ p ∈ create_mapping records use_llm openaiOk apiKey llm rand,
      p.2 ∈ STANDARD_CATEGORIES := by
  constructor
  · simp only [create_mapping, List.map_map]
    rfl
  · intro p hp
    simp only [create_mapping, List.mem_map] at hp
    obtain ⟨q, hq, rfl⟩ := hp
    dsimp only
    cases halo : alookup
        (if use_llm then
          match classify_with_llm openaiOk apiKey llm
              (sample_doc_types_strategically rand records) with
          | .ok m => m
          | .error _ =>
            fallback_classification (sample_doc_types_strategically rand records)
        else fallback_classification (sample_doc_types_strategically rand records))
        q.1 with
    | none =>
      exact classifyFallback_mem q.1
    | some c =>
      obtain ⟨p2, hp2, hv⟩ := alookup_mem halo
      exact hv ▸ mappingStage_values use_llm openaiOk apiKey llm
        (sample_doc_types_strategically rand records) p2 hp2

/-- Claim C3 witness: the rule-based run on the three-record example, also
checking the end-to-end classification values. -/
theorem claim_C3_witness :
    create_mapping recsC3 false false false llmNone randNil =
      [(pstr "WARRANTY DEED", catSALE_DEED),
       (pstr "DEED OF TRUST", catDEED_OF_TRUST),
       (pstr "MTG ASSIGNMENT", catMORTGAGE)] ∧
    ((create_mapping recsC3 false false false llmNone randNil).map Prod.fst =
      (docTypeCounter recsC3).map Prod.fst) ∧
    (∀ p ∈ create_mapping recsC3 false false false llmNone randNil,
      p.2 ∈ STANDARD_CATEGORIES) :=
  ⟨by decide, (claim_C3 recsC3 false false false llmNone randNil).1,
   (claim_C3 recsC3 false false false llmNone randNil).2⟩

/-! ## Claim C10 -/

/-- Claim C10: when none of the earlier cascade rules fire (exact trust
short codes, trust-with-deed, mortgage keywords, satisfaction keywords)
and the lowercased trimmed doc_type contains the substring can, the
fallback classification assigns RELEASE. -/
theorem claim_C10 (dt : PyStr)
    (h1 : pyLower (pyStrip dt) ∉ exactCodes)
    (h2 : (isSub (pstr "trust") (pyLower (pyStrip dt)) &&
        (isSub (pstr "deed") (pyLower (pyStrip dt)) ||
         (pstr "trust").isPrefixOf (pyLower (pyStrip dt)))) = false)
    (h3 : anyKw (pyLower (pyStrip dt))
        [pstr "mortgage", pstr "mtge", pstr "mtg", pstr "morg"] = false)
    (h4 : anyKw (pyLower (pyStrip dt))
        [pstr "satisfaction", pstr "sat", pstr "certificate of satisfaction"] = false)
    (h5 : isSub (pstr "can") (pyLower (pyStrip dt)) = true) :
    classifyFallback dt = catRELEASE ∧
    alookup (fallback_classification [dt]) dt = some catRELEASE := by
  have hc : classifyCore (pyLower (pyStrip dt)) = catRELEASE := by
    delta classifyCore
    rw [if_neg h1]
    rw [if_neg (by simp [h2])]
    rw [if_neg (by simp [h3])]
    rw [if_neg (by simp [h4])]
    rw [if_pos (by simp [anyKw, h5])]
  refine ⟨hc, ?_⟩
  simp [fallback_classification, alookup, classifyFallback, hc]

/-- Claim C10 witness: AMERICAN contains can, matches no earlier rule, and
is classified RELEASE. -/
theorem claim_C10_witness :
    (pyLower (pyStrip (pstr "AMERICAN")) ∉ exactCodes ∧
     isSub (pstr "can") (pyLower (pyStrip (pstr "AMERICAN"))) = true) ∧
    classifyFallback (pstr "AMERICAN") = catRELEASE ∧
    alookup (fallback_classification [pstr "AMERICAN"]) (pstr "AMERICAN") =
      some catRELEASE :=
  ⟨⟨by decide, by decide⟩,
   claim_C10 (pstr "AMERICAN") (by decide) (by decide) (by decide) (by decide)
     (by decide)⟩

/-! ## Lemmas: the date-range loop -/

lemma drLoop_ok_elim {pd : PyStr → Option PyStr} {fi : PyStr → Except PyStr DT}
    {today : Int} :
    ∀ {records : List Record} {d : List DT} {a : List Anom},
      drLoop pd fi today records = .ok (d, a) →
      ∀ r ∈ records, ∃ x, recStep pd fi today r = .ok x := by
  intro records
  induction records with
  | nil => intro d a _ r hr; cases hr
  | cons r0 rs ih =>
    intro d a h r hr
    unfold drLoop at h
    cases hstep : recStep pd fi today r0 with
    | error e => simp only [hstep] at h; cases h
    | ok x =>
      simp only [hstep] at h
      cases hloop : drLoop pd fi today rs with
      | error e => simp only [hloop] at h; cases h
      | ok y =>
        obtain ⟨y1, y2⟩ := y
        rcases List.mem_cons.mp hr with rfl | hr2
        · exact ⟨x, hstep⟩
        · exact ih hloop r hr2

lemma drLoop_flat {pd : PyStr → Option PyStr} {fi : PyStr → Except PyStr DT}
    {today : Int} :
    ∀ {records : List Record} {d : List DT} {a : List Anom},
      drLoop pd fi today records = .ok (d, a) →
      a = records.flatMap
          (fun r => ((recStep pd fi today r).toOption.map Prod.snd).getD []) ∧
      d = records.flatMap
          (fun r => ((recStep pd fi today r).toOption.map Prod.fst).getD []) := by
  intro records
  induction records with
  | nil =>
    intro d a h
    cases h
    simp
  | cons r0 rs ih =>
    intro d a h
    unfold drLoop at h
    cases hstep : recStep pd fi today r0 with
    | error e => simp only [hstep] at h; cases h
    | ok x =>
      simp only [hstep] at h
      cases hloop : drLoop pd fi today rs with
      | error e => simp only [hloop] at h; cases h
      | ok y =>
        obtain ⟨y1, y2⟩ := y
        simp only [hloop] at h
        cases h
        obtain ⟨h1, h2⟩ := ih hloop
        constructor
        · simp only [List.flatMap_cons]
          rw [← h1]
          congr 1
          rw [hstep]
          rfl
        · simp only [List.flatMap_cons]
          rw [← h2]
          congr 1
          rw [hstep]
          rfl

/-! ## Claim C4 -/

/-- Claim C4 (amended): when the whole run succeeds, the anomaly list is
the concatenation of the per-record contributions, and a successfully
re-parsed (naive) date is flagged future_date exactly when it is at least
2 whole days ahead of the current instant — the code tests
`(dt - today).days > 1`, which floors, so anything less than 172800
seconds ahead (even 1 day + 23 hours) is not flagged. -/
theorem claim_C4 (pd : PyStr → Option PyStr) (fi : PyStr → Except PyStr DT)
    (today : Int) (records : List Record) (dr : DateRange)
    (hok : analyze_date_ranges pd fi today records = .ok dr) :
    (dr.anomalies = records.flatMap
      (fun r => ((recStep pd fi today r).toOption.map Prod.snd).getD [])) ∧
    ∀ r ∈ records, ∀ ds p dt, r.date = some ds → ds ≠ [] → pd ds = some p →
      fi (isoArg p) = .ok dt →
      recStep pd fi today r = .ok ([dt],
        (if 172800 ≤ dt.sec - today then
          [Anom.future p (Int.fdiv (dt.sec - today) 86400)] else []) ++
        (if dt.year < 1800 then [Anom.veryOld p dt.year] else [])) := by
  unfold analyze_date_ranges at hok
  cases hloop : drLoop pd fi today records with
  | error e => rw [hloop] at hok; cases hok
  | ok pair =>
    obtain ⟨dates, anoms⟩ := pair
    rw [hloop] at hok
    cases hok
    constructor
    · exact (drLoop_flat hloop).1
    · intro r hr ds p dt hds hdsne hpd hfi
      have hdse : ds.isEmpty = false := by
        cases hds2 : ds
        · exact absurd hds2 hdsne
        · rfl
      have hstep2 : recStep pd fi today r =
          (if dt.aware then
            .error (pstr "TypeError: cannot compare offset-naive and offset-aware datetimes")
          else
            .ok ([dt],
              (if today < dt.sec ∧ 1 < Int.fdiv (dt.sec - today) 86400 then
                [Anom.future p (Int.fdiv (dt.sec - today) 86400)] else []) ++
              (if dt.year < 1800 then [Anom.veryOld p dt.year] else []))) := by
        unfold recStep
        simp only [hds, hdse, hpd, hfi, Bool.false_eq_true, if_false]
      cases haware : dt.aware with
      | true =>
        obtain ⟨x, hx⟩ := drLoop_ok_elim hloop r hr
        rw [hstep2, if_pos (by rw [haware])] at hx
        cases hx
      | false =>
        rw [hstep2, if_neg (by rw [haware]; exact Bool.false_ne_true)]
        have hiff : (today < dt.sec ∧ 1 < Int.fdiv (dt.sec - today) 86400) ↔
            172800 ≤ dt.sec - today := by
          rw [Int.fdiv_eq_ediv _ (by norm_num : (0:Int) ≤ 86400)]
          constructor
          · rintro ⟨h1, h2⟩
            have h3 : 2 ≤ (dt.sec - today) / 86400 := by omega
            have h4 := (Int.le_ediv_iff_mul_le (by norm_num : (0:Int) < 86400)).mp h3
            omega
          · intro h1
            refine ⟨by omega, ?_⟩
            have h3 : (2 : Int) * 86400 ≤ dt.sec - today := by omega
            have h4 := (Int.le_ediv_iff_mul_le (by norm_num : (0:Int) < 86400)).mpr h3
            omega
        rw [if_congr hiff rfl rfl]

/-- Claim C4 counterexample: a date 25 hours ahead of the current instant
is strictly more than 1 day ahead, yet the run reports no anomaly at all. -/
theorem claim_C4_counterexample :
    analyze_date_ranges pdX fiX 0 [rec25h] =
      .ok { earliest := some ⟨90000, 2026, false⟩, latest := some ⟨90000, 2026, false⟩,
            anomalies := [] } ∧
    (86400 : Int) < 90000 - 0 :=
  ⟨rfl, by decide⟩

/-- Claim C4 witness: a date exactly 2 days ahead is flagged with
days_ahead 2, a date 12 hours ahead is not flagged. -/
theorem claim_C4_witness :
    recStep pdX fiX 0 rec2d =
      .ok ([⟨172800, 2026, false⟩],
        (if (172800 : Int) ≤ (172800 : Int) - 0 then
          [Anom.future (pstr "2026-10-15T00:00:00") (Int.fdiv ((172800 : Int) - 0) 86400)]
         else []) ++
        (if (2026 : Int) < 1800 then
          [Anom.veryOld (pstr "2026-10-15T00:00:00") 2026] else [])) ∧
    recStep pdX fiX 0 rec12h =
      .ok ([⟨43200, 2026, false⟩],
        (if (172800 : Int) ≤ (43200 : Int) - 0 then
          [Anom.future (pstr "2026-10-13T12:00:00") (Int.fdiv ((43200 : Int) - 0) 86400)]
         else []) ++
        (if (2026 : Int) < 1800 then
          [Anom.veryOld (pstr "2026-10-13T12:00:00") 2026] else [])) ∧
    analyze_date_ranges pdX fiX 0 [rec2d, rec12h] =
      .ok { earliest := some ⟨43200, 2026, false⟩, latest := some ⟨172800, 2026, false⟩,
            anomalies := [Anom.future (pstr "2026-10-15T00:00:00") 2] } :=
  have hok : analyze_date_ranges pdX fiX 0 [rec2d, rec12h] =
      .ok { earliest := some ⟨43200, 2026, false⟩, latest := some ⟨172800, 2026, false⟩,
            anomalies := [Anom.future (pstr "2026-10-15T00:00:00") 2] } := rfl
  ⟨(claim_C4 pdX fiX 0 [rec2d, rec12h] _ hok).2 rec2d (by decide)
      (pstr "2026-10-15T00:00:00") (pstr "2026-10-15T00:00:00") ⟨172800, 2026, false⟩
      (by decide) (by decide) (by decide) rfl,
   (claim_C4 pdX fiX 0 [rec2d, rec12h] _ hok).2 rec12h (by decide)
      (pstr "2026-10-13T12:00:00") (pstr "2026-10-13T12:00:00") ⟨43200, 2026, false⟩
      (by decide) (by decide) (by decide) rfl,
   hok⟩

/-! ## Claim C5 -/

/-- Claim C5: the date-handling path CAN raise.  parse_date normalizes a
timezone-carrying date string via the %z format and returns it (absence
only on failure), the strict re-parse succeeds with an aware datetime, and
then `dt > today` raises an uncaught TypeError (naive vs aware
comparison), so analyze_date_ranges propagates an exception instead of
returning a summary. -/
theorem claim_C5 :
    parse_date fmtsX duX (pstr "2020-01-01T00:00:00+05:00") =
      some (pstr "2020-01-01T00:00:00+05:00") ∧
    analyze_date_ranges (parse_date fmtsX duX) fiX 0 [recAware] =
      .error (pstr "TypeError: cannot compare offset-naive and offset-aware datetimes") :=
  ⟨by decide, rfl⟩

/-! ## Lemmas: the JSONL stream -/

lemma sjAux_fst (jl : PyStr → Except PyStr JsonVal) :
    ∀ (n : Nat) (lines : List PyStr),
      (sjAux jl n lines).1 =
        ((lines.map pyStrip).filter (fun s => !s.isEmpty)).filterMap
          (fun s => (jl s).toOption) := by
  intro n lines
  induction lines generalizing n with
  | nil => rfl
  | cons l ls ih =>
    simp only [sjAux, List.map_cons, List.filter_cons]
    cases hse : (pyStrip l).isEmpty with
    | true => simpa [hse] using ih (n + 1)
    | false =>
      cases hjl : jl (pyStrip l) with
      | ok v => simp [hse, hjl, Except.toOption, ih (n + 1)]
      | error e => simp [hse, hjl, Except.toOption, ih (n + 1)]

lemma sjAux_snd (jl : PyStr → Except PyStr JsonVal) :
    ∀ (n : Nat) (lines : List PyStr),
      (sjAux jl n lines).2.length =
        ((lines.map pyStrip).filter (fun s => !s.isEmpty)).countP
          (fun s => (jl s).toOption.isNone) := by
  intro n lines
  induction lines generalizing n with
  | nil => rfl
  | cons l ls ih =>
    simp only [sjAux, List.map_cons, List.filter_cons]
    cases hse : (pyStrip l).isEmpty with
    | true => simpa [hse] using ih (n + 1)
    | false =>
      cases hjl : jl (pyStrip l) with
      | ok v => simp [hse, hjl, Except.toOption, ih (n + 1), List.countP_cons]
      | error e => simp [hse, hjl, Except.toOption, ih (n + 1), List.countP_cons]

/-! ## Claim C6 -/

/-- Claim C6 counterexample: the line 123 parses as a JSON number, is not
skipped, and is yielded even though it is not a mapping; the malformed
third line is skipped with a warning and the stream continues. -/
theorem claim_C6_counterexample :
    (stream_jsonl jlX [pstr "123", pstr "", pstr "oops"]).1 = [.jNum 123] ∧
    isObj (.jNum 123) = false ∧
    (stream_jsonl jlX [pstr "123", pstr "", pstr "oops"]).2 =
      [(3, pstr "Expecting value")] :=
  ⟨rfl, rfl, rfl⟩

/-- Claim C6 amended: stream_jsonl yields the parsed JSON value of every
line that parses as JSON (an object or not), in order; lines that are
empty after stripping are skipped silently, lines that fail to parse are
skipped with one logged warning each and never abort the stream; in
particular every line parsing as a JSON object yields that mapping. -/
theorem claim_C6 (jl : PyStr → Except PyStr JsonVal) (lines : List PyStr) :
    ((stream_jsonl jl lines).1 =
      ((lines.map pyStrip).filter (fun s => !s.isEmpty)).filterMap
        (fun s => (jl s).toOption)) ∧
    (∀ v ∈ (stream_jsonl jl lines).1, ∃ l ∈ lines, jl (pyStrip l) = .ok v) ∧
    ((stream_jsonl jl lines).2.length =
      ((lines.map pyStrip).filter (fun s => !s.isEmpty)).countP
        (fun s => (jl s).toOption.isNone)) ∧
    (∀ l ∈ lines, (pyStrip l).isEmpty = false →
      ∀ f, jl (pyStrip l) = .ok (.jObj f) →
        JsonVal.jObj f ∈ (stream_jsonl jl lines).1) := by
  refine ⟨sjAux_fst jl 1 lines, ?_, sjAux_snd jl 1 lines, ?_⟩
  · intro v hv
    rw [stream_jsonl, sjAux_fst jl 1 lines] at hv
    obtain ⟨s, hs, hsv⟩ := List.mem_filterMap.mp hv
    obtain ⟨hsm, _⟩ := List.mem_filter.mp hs
    obtain ⟨l, hl, rfl⟩ := List.mem_map.mp hsm
    refine ⟨l, hl, ?_⟩
    cases hjl : jl (pyStrip l) with
    | ok w => rw [hjl] at hsv; cases hsv; rfl
    | error e => rw [hjl] at hsv; cases hsv
  · intro l hl hse f hjl
    rw [stream_jsonl, sjAux_fst jl 1 lines]
    refine List.mem_filterMap.mpr ⟨pyStrip l, ?_, ?_⟩
    · exact List.mem_filter.mpr ⟨List.mem_map_of_mem _ hl, by simp [hse]⟩
    · rw [hjl]; rfl

/-- Claim C6 witness: the theorem applied to the concrete oracle and
lines. -/
theorem claim_C6_witness :
    ((stream_jsonl jlX [pstr "123", pstr "oops"]).1 =
      (([pstr "123", pstr "oops"].map pyStrip).filter (fun s => !s.isEmpty)).filterMap
        (fun s => (jlX s).toOption)) ∧
    (∀ v ∈ (stream_jsonl jlX [pstr "123", pstr "oops"]).1,
      ∃ l ∈ [pstr "123", pstr "oops"], jlX (pyStrip l) = .ok v) :=
  ⟨(claim_C6 jlX [pstr "123", pstr "oops"]).1,
   (claim_C6 jlX [pstr "123", pstr "oops"]).2.1⟩

/-- Claim C3 counterexample: a record whose doc_type is the empty string
has a doc_type value present in the dataset, yet the produced mapping has
no entry for it — the gathering pass keeps only truthy values
(`if doc_type:`), so the empty string is skipped. -/
theorem claim_C3_counterexample :
    ({ doc_type := some (pstr "") } : Record).doc_type = some (pstr "") ∧
    create_mapping [{ doc_type := some (pstr "") }] false false false llmNone randNil =
      [] :=
  ⟨rfl, by decide⟩
